import Mathlib

/-!
Verification development for the KML-to-mask pipeline
(`KML_to_mask.py` / `main.py`).

The numeric code of the repository is embedded over the real numbers:
`math.cos`, `math.log`, `math.tan` become `Real.cos`, `Real.log`,
`Real.tan`.  Python's float division that can raise `ZeroDivisionError`
is embedded as an `Except`-valued computation with an explicit test of
the divisor at exactly the division sites of the source.  Python's
`//` on floats is mathematical `Int.floor`; `numpy`'s `astype(np.int32)`
is truncation toward zero (no value in the claims' domain comes near
the int32 wrap-around, so the `% 2 ** 32` reduction is omitted).
The unbounded `while` loop of `get_exact_map_lat` is embedded with an
explicit fuel parameter; running out of fuel is reported as the
distinguished value `PyErr.fuelExhausted`, which no run of the Python
source can produce (the source has no iteration bound).
-/

open scoped Classical

/-- Outcomes of running the embedded Python fragments: an uncaught
`ZeroDivisionError`, an uncaught `NameError`, an uncaught `IndexError`,
or exhaustion of the fuel bounding an unbounded source loop. -/
inductive PyErr where
  | zeroDivisionError
  | nameError
  | indexError
  | fuelExhausted
deriving DecidableEq, Repr

noncomputable section

/-- `calc_c_zoom(zoom)` (KML_to_mask.py line 156): `360 / (2 ** (zoom - 1))`,
the longitude degrees spanned by one 512-pixel tile row at `zoom`. -/
def calc_c_zoom (zoom : ℤ) : ℝ := 360 / 2 ^ (zoom - 1)

/-- `angle_lat(lat)` (line 160): `lat * math.pi / 180`. -/
def angle_lat (lat : ℝ) : ℝ := lat * Real.pi / 180

/-- `long_degrees_per_pixel(zoom, long)` (line 164): `calc_c_zoom(zoom) / 512`.
The `long` argument is ignored by the source as well. -/
def long_degrees_per_pixel (zoom : ℤ) (_long : ℝ) : ℝ := calc_c_zoom zoom / 512

/-- `lat_degrees_per_pixel(zoom, lat)` (line 168):
`calc_c_zoom(zoom) / 512 * cos(angle_lat(lat))`. -/
def lat_degrees_per_pixel (zoom : ℤ) (lat : ℝ) : ℝ :=
  calc_c_zoom zoom / 512 * Real.cos (angle_lat lat)

/-- `long_degrees_per_img(zoom, long, size)` (line 173). -/
def long_degrees_per_img (zoom : ℤ) (long : ℝ) (size : ℕ) : ℝ :=
  long_degrees_per_pixel zoom long * size

/-- `lat_degrees_per_img(zoom, lat, size)` (line 177). -/
def lat_degrees_per_img (zoom : ℤ) (lat : ℝ) (size : ℕ) : ℝ :=
  lat_degrees_per_pixel zoom lat * size

/-- `norm_lat(lat)` (line 181):
`180 / pi * log(1 / cos(angle_lat(lat)) + tan(angle_lat(lat)))`,
the Mercator normalized latitude.  Embedded with Mathlib's total
`Real.log`; the claims only evaluate it strictly inside `(-90, 90)`,
where the Python source is defined as well. -/
def norm_lat (lat : ℝ) : ℝ :=
  180 / Real.pi *
    Real.log (1 / Real.cos (angle_lat lat) + Real.tan (angle_lat lat))

/-- The `while abs(diff) > 10 ** -9` loop of `get_exact_map_lat`
(lines 191-195), with fuel.  `m0` is `n_map_lat_int`, computed once
before the loop and never updated (faithful to the source).  The two
divisor tests mirror the two divisions `diff / n_map_lat_int` and
`... / lat` of line 192, evaluated left to right as in Python. -/
def get_exact_map_lat_loop (C_zoom : ℝ) (m0 : ℤ) : ℕ → ℝ → Except PyErr ℝ
  | 0, lat =>
      if |norm_lat lat / C_zoom - (m0 : ℝ)| ≤ 1e-9 then .ok lat
      else .error .fuelExhausted
  | fuel + 1, lat =>
      let diff := norm_lat lat / C_zoom - (m0 : ℝ)
      if |diff| ≤ 1e-9 then .ok lat
      else if m0 = 0 then .error .zeroDivisionError
      else if lat = 0 then .error .zeroDivisionError
      else
        get_exact_map_lat_loop C_zoom m0 fuel
          (lat * (1 - diff / (m0 : ℝ) * Real.cos (angle_lat lat) / lat * norm_lat lat))

/-- `get_exact_map_lat(lat, zoom)` (lines 186-196): computes
`n_map_lat_int = (norm_lat(lat) / C_zoom) // 1`, runs the refinement
loop, and returns `lat + lat_degrees_per_img(zoom, lat, 512) / 2`
together with the integer grid index. -/
def get_exact_map_lat (lat : ℝ) (zoom : ℤ) (fuel : ℕ) : Except PyErr (ℝ × ℤ) :=
  let C_zoom := calc_c_zoom zoom
  let m0 := ⌊norm_lat lat / C_zoom⌋
  match get_exact_map_lat_loop C_zoom m0 fuel lat with
  | .error e => .error e
  | .ok lat' => .ok (lat' + lat_degrees_per_img zoom lat' 512 / 2, m0)

/-- `get_exact_map_long(long, zoom)` (lines 199-205).  The divisor test
mirrors the division `diff / n_map_long` of line 204, which raises
`ZeroDivisionError` in Python exactly when `n_map_long == 0.0`.
`n_map_long_int = n_map_long // 1` is `Int.floor`. -/
def get_exact_map_long (long : ℝ) (zoom : ℤ) : Except PyErr (ℝ × ℤ) :=
  let C_zoom := calc_c_zoom zoom
  let n := long / C_zoom
  let n0 := ⌊n⌋
  let diff := n - (n0 : ℝ)
  if n = 0 then .error .zeroDivisionError
  else
    let long' := long * (1 - diff / n)
    .ok (long' + long_degrees_per_img zoom long' 512 / 2, n0)

end

/-- Python's `str.split(sep)` for a single-character separator, acting on
the character list of the string.  Empty segments are kept, as in Python;
the result is always nonempty. -/
def py_split (sep : Char) : List Char → List (List Char)
  | [] => [[]]
  | c :: cs =>
      let r := py_split sep cs
      if c = sep then [] :: r else (c :: r.headI) :: r.tail

/-- Python's lexicographic `<` on strings, comparing Unicode code points
(all filenames involved are ASCII). -/
def py_str_lt : List Char → List Char → Bool
  | [], [] => false
  | [], _ :: _ => true
  | _ :: _, [] => false
  | c :: cs, d :: ds =>
      if c.toNat = d.toNat then py_str_lt cs ds else decide (c.toNat < d.toNat)

/-- Decimal digit character, by code point. -/
def is_digit_char (c : Char) : Bool := 48 ≤ c.toNat && c.toNat ≤ 57

/-- Numeric value of a decimal digit string — the claims' notion of the
"numeric ordinal" of a mask filename. -/
def digits_to_nat : List Char → ℕ
  | [] => 0
  | c :: cs => (c.toNat - 48) * 10 ^ cs.length + digits_to_nat cs

/-- `file.split('_')[-1].split('.')[0]` (KML_to_mask.py lines 326-327):
the per-tile ordinal suffix of a mask filename, as a string. -/
def ordinal_of (file : List Char) : List Char :=
  (py_split '.' ((py_split '_' file).getLastD [])).headI

/-- A mask raster, as its indicator: `m i j = true` iff the pixel in
column `i`, row `j` is nonzero. -/
abbrev Mask := ℤ → ℤ → Bool

/-- All `(column, row)` pixel pairs of a `size × size` raster. -/
def grid (size : ℕ) : List (ℤ × ℤ) :=
  (List.range size).flatMap fun (j : ℕ) =>
    (List.range size).map fun (i : ℕ) => ((i : ℤ), (j : ℤ))

/-- `mask.any()`: some pixel of the `size × size` raster is nonzero. -/
def mask_any (m : Mask) (size : ℕ) : Bool :=
  (grid size).any fun q => m q.1 q.2

/-- `np.sum(mask_png)` over the `size × size` raster: every nonzero pixel
contributes 255, the value `cv2.drawContours` writes to the red channel. -/
def mask_sum (m : Mask) (size : ℕ) : ℕ :=
  ((grid size).map fun q => if m q.1 q.2 then (255 : ℕ) else 0).sum

/-- `(mask_1 & mask_2).any()` (line 322), also
`np.logical_and(old_mask, new_mask).any()` (line 358). -/
def masks_overlap (m1 m2 : Mask) (size : ℕ) : Bool :=
  (grid size).any fun q => m1 q.1 q.2 && m2 q.1 q.2

/-- One iteration of the inner loop body of
`remove_masks_with_ovelapping_pixels` (lines 320-332): given two mask
files (filename and raster), the name of the file the body removes, or
`none` when a guard fails.  `map_1 == map_2` is equality of the first
four `'_'`-separated filename fields, and `mask_1_num > mask_2_num` is
Python's lexicographic string comparison of the ordinal suffixes. -/
def pair_action (f1 f2 : List Char × Mask) (size : ℕ) : Option (List Char) :=
  if f1.1 ≠ f2.1 ∧ masks_overlap f1.2 f2.2 size = true then
    if (py_split '_' f1.1).take 4 = (py_split '_' f2.1).take 4 then
      some (if py_str_lt (ordinal_of f2.1) (ordinal_of f1.1) then f1.1 else f2.1)
    else none
  else none

/-- Cross product `(q - p) × (r - p)` of integer pixel points. -/
def cross2 (p q r : ℤ × ℤ) : ℤ :=
  (q.1 - p.1) * (r.2 - p.2) - (q.2 - p.2) * (r.1 - p.1)

/-- All pixel vertices lie on one line (vacuously true when there are
fewer than two distinct points). -/
def all_collinear (pts : List (ℤ × ℤ)) : Bool :=
  match pts with
  | [] => true
  | p :: rest =>
      match rest.find? (fun q => decide (q ≠ p)) with
      | none => true
      | some q => pts.all fun r => decide (cross2 p q r = 0)

/-- Number of distinct pixel vertices. -/
def distinct_count (pts : List (ℤ × ℤ)) : ℕ := pts.dedup.length

/-- Degenerate pixel ring in the sense of spec §4.3: fewer than 3 distinct
vertices after rounding, or collinear points. -/
def degenerate_ring (pts : List (ℤ × ℤ)) : Bool :=
  decide (distinct_count pts < 3) || all_collinear pts

/-- Closed edge list of a pixel polygon: consecutive vertex pairs with the
last vertex joined back to the first (`cv2.drawContours` closes the ring). -/
def ring_edges (pts : List (ℤ × ℤ)) : List ((ℤ × ℤ) × (ℤ × ℤ)) :=
  pts.zip (pts.rotate 1)

/-- Even-odd crossing test: the horizontal ray from pixel `(i, j)` toward
increasing column crosses the edge `e` (the strict inequality is the
ray test `i < x_intersection`, cleared of denominators). -/
def edge_crosses (i j : ℤ) (e : (ℤ × ℤ) × (ℤ × ℤ)) : Bool :=
  decide (((e.1.2 ≤ j ∧ j < e.2.2) ∨ (e.2.2 ≤ j ∧ j < e.1.2)) ∧
    (i - e.1.1) * (e.2.2 - e.1.2) ^ 2 < (j - e.1.2) * (e.2.1 - e.1.1) * (e.2.2 - e.1.2))

/-- Even-odd interior test for one pixel of a filled pixel polygon. -/
def inside_even_odd (pts : List (ℤ × ℤ)) (i j : ℤ) : Bool :=
  decide (((ring_edges pts).countP fun e => edge_crosses i j e) % 2 = 1)

/-- Modelled from the spec: the filled-contour rasterization performed by
`cv2.drawContours(mask_jpg, [coords], 0, (0, 0, 255), -1)` on line 246 —
external library code that is not under `src/`.  Following spec §4.3
step 4: a degenerate ring (fewer than 3 distinct vertices after
rounding, or collinear points) produces the all-zero mask; otherwise the
pixel polygon is filled as a solid region (even-odd interior). -/
def draw_contours_fill (pts : List (ℤ × ℤ)) : Mask :=
  if degenerate_ring pts then fun _ _ => false
  else fun i j => inside_even_odd pts i j

/-- Top-level names of the module `KML_to_mask.py`: the names bound by its
imports (lines 1-13) and by its function definitions. -/
def kml_to_mask_module_globals : List String :=
  ["requests", "BytesIO", "math", "log", "exp", "tan", "pi", "Image", "sys",
   "os", "json", "np", "cv2", "hashlib", "pickle", "ET",
   "get_placemarks", "get_polygon_coords", "get_polygon_bbox",
   "get_polygon_center", "get_map_for_POI", "download_google_maps_by_center",
   "calc_c_zoom", "angle_lat", "long_degrees_per_pixel",
   "lat_degrees_per_pixel", "long_degrees_per_img", "lat_degrees_per_img",
   "norm_lat", "get_exact_map_lat", "get_exact_map_long", "gl_map_by_center",
   "obj_to_mask", "read_kml_and_load_maps",
   "remove_masks_with_ovelapping_pixels", "remove_mask_duplicates",
   "make_masks"]

/-- Python builtin names relevant to `remove_mask_duplicates`. -/
def py_builtins : List String :=
  ["print", "open", "len", "enumerate", "range", "list", "sum", "abs",
   "int", "float", "str", "round", "format", "FileNotFoundError",
   "KeyError", "True", "False", "None"]

/-- Local names of `remove_mask_duplicates` (lines 339-368): its parameter
and every name it assigns. -/
def remove_mask_duplicates_locals : List String :=
  ["ANNOT_DIR", "path_to_obj_list", "f", "old_list", "new_list", "i", "old",
   "lat", "long", "old_mask", "overlap", "new", "new_mask"]

/-- Python name resolution for a name referenced inside
`remove_mask_duplicates`: local scope, then the globals of the defining
module `KML_to_mask.py`, then builtins.  The globals of `main.py` —
where `zoom` and `size` are assigned (main.py lines 18-19) — are not in
any of these scopes. -/
def name_resolves (n : String) : Bool :=
  remove_mask_duplicates_locals.contains n ||
    kml_to_mask_module_globals.contains n || py_builtins.contains n

noncomputable section

/-- Truncation toward zero: `numpy`'s `astype(np.int32)` on the coordinate
values of line 243 (every value in the claims' domain is far from the
int32 range ends, so the `% 2 ** 32` wrap is omitted). -/
def py_trunc (x : ℝ) : ℤ := if 0 ≤ x then ⌊x⌋ else ⌈x⌉

/-- A polygon as parsed by `get_polygon_coords` (lines 36-40): the list of
its `(longitude, latitude)` vertex pairs in degrees (KML coordinate
order: column 0 is longitude, column 1 is latitude). -/
abbrev Polygon := List (ℝ × ℝ)

/-- `get_polygon_bbox` (lines 43-54): `(top, left, bottom, right)` from the
column-wise max/min of the coordinate array.  The source errors on an
empty array; the claims only use nonempty polygons, and the embedding
returns zeros there. -/
def get_polygon_bbox (poly : Polygon) : ℝ × ℝ × ℝ × ℝ :=
  match poly with
  | [] => (0, 0, 0, 0)
  | c :: cs =>
      (cs.foldl (fun a q => max a q.2) c.2,
       cs.foldl (fun a q => min a q.1) c.1,
       cs.foldl (fun a q => min a q.2) c.2,
       cs.foldl (fun a q => max a q.1) c.1)

/-- `get_polygon_center` (lines 57-67):
`((top + bottom) / 2, (left + right) / 2)`, i.e. `(latitude, longitude)`
of the bounding-box center. -/
def get_polygon_center (poly : Polygon) : ℝ × ℝ :=
  let b := get_polygon_bbox poly
  ((b.1 + b.2.2.1) / 2, (b.2.1 + b.2.2.2) / 2)

/-- Vertex pixel coordinates computed by `obj_to_mask` (lines 232-242)
before integer truncation:
`x = (long - left) * (size / long_degrees_per_img(zoom, long_c, size))` and
`y = (top - lat) * (size / lat_degrees_per_img(zoom, lat_c, size))`, where
`(lat_c, long_c)` is the polygon's own bounding-box center (line 234) and
`top`/`left` are the tile edges computed at the tile center
`(exact_map_lat, exact_map_long)` (lines 235-236). -/
def obj_to_mask_coords (poly : Polygon) (exact_map_lat exact_map_long : ℝ)
    (zoom : ℤ) (size : ℕ) : List (ℝ × ℝ) :=
  let c := get_polygon_center poly
  let top := exact_map_lat + lat_degrees_per_img zoom exact_map_lat size / 2
  let left := exact_map_long - long_degrees_per_img zoom exact_map_long size / 2
  poly.map fun v =>
    ((v.1 - left) * (size / long_degrees_per_img zoom c.2 size),
     (top - v.2) * (size / lat_degrees_per_img zoom c.1 size))

/-- Following the spec's words for C6 (§4.3 step 2): pixel coordinates
`x = (long - left) / longitudeDegreesPerPixel` and
`y = (top - lat) / latitudeDegreesPerPixel`, with both degrees-per-pixel
factors evaluated at the resolved tile center passed to the rasterizer. -/
def obj_to_mask_coords_spec (poly : Polygon) (exact_map_lat exact_map_long : ℝ)
    (zoom : ℤ) (size : ℕ) : List (ℝ × ℝ) :=
  let top := exact_map_lat + lat_degrees_per_img zoom exact_map_lat size / 2
  let left := exact_map_long - long_degrees_per_img zoom exact_map_long size / 2
  poly.map fun v =>
    ((v.1 - left) / long_degrees_per_pixel zoom exact_map_long,
     (top - v.2) / lat_degrees_per_pixel zoom exact_map_lat)

/-- The integer pixel vertices, `coords.astype(np.int32)` (line 243). -/
def obj_to_mask_px (poly : Polygon) (exact_map_lat exact_map_long : ℝ)
    (zoom : ℤ) (size : ℕ) : List (ℤ × ℤ) :=
  (obj_to_mask_coords poly exact_map_lat exact_map_long zoom size).map
    fun v => (py_trunc v.1, py_trunc v.2)

/-- `obj_to_mask` (lines 232-248): the binary mask (red channel of the
drawn filled contour) of the polygon in the tile's pixel space. -/
def obj_to_mask (poly : Polygon) (exact_map_lat exact_map_long : ℝ)
    (zoom : ℤ) (size : ℕ) : Mask :=
  draw_contours_fill (obj_to_mask_px poly exact_map_lat exact_map_long zoom size)

/-- Loop body of `remove_mask_duplicates` (lines 350-363) for one `old`
polygon: `old` is appended to `new_list` unless its mask, drawn at
`old`'s own bounding-box center `(lat, long)`, intersects the mask of
some already kept polygon drawn at that same center.  `zoom` and `size`
are parameters here; the source reads them as free names (see
`name_resolves` and `remove_mask_duplicates_py`), and `main.py` sets
`zoom = 17`, `size = 640`. -/
def remove_mask_duplicates_step (zoom : ℤ) (size : ℕ)
    (new_list : List Polygon) (old : Polygon) : List Polygon :=
  let c := get_polygon_center old
  let old_mask := obj_to_mask old c.1 c.2 zoom size
  let overlap := new_list.any fun nw =>
    masks_overlap old_mask (obj_to_mask nw c.1 c.2 zoom size) size
  if overlap then new_list else new_list ++ [old]

/-- The dedup pass of `remove_mask_duplicates` (lines 345-363):
`new_list` starts as `[old_list[0]]` (line 347), then the loop body runs
for every `old` of `old_list` — including its first element again. -/
def remove_mask_duplicates (zoom : ℤ) (size : ℕ) (old_list : List Polygon) :
    List Polygon :=
  match old_list with
  | [] => []
  | p0 :: _ => old_list.foldl (remove_mask_duplicates_step zoom size) [p0]

/-- `remove_mask_duplicates` as executed by Python: on a nonempty list the
call `obj_to_mask(old, lat, long, zoom, size)` (line 353) is reached, in
the first loop iteration, before any overlap comparison, and its
arguments `zoom` and `size` must be resolved by Python name resolution
in the scope of the defining module `KML_to_mask.py`.  When either name
fails to resolve, the call raises `NameError` and no deduplicated list
is produced; otherwise the pass runs with the resolved values.  An empty
list raises `IndexError` at `old_list[0]` (line 347). -/
def remove_mask_duplicates_py (zoom : ℤ) (size : ℕ) (old_list : List Polygon) :
    Except PyErr (List Polygon) :=
  match old_list with
  | [] => .error .indexError
  | _ :: _ =>
      if name_resolves "zoom" && name_resolves "size" then
        .ok (remove_mask_duplicates zoom size old_list)
      else .error .nameError

/-- One record of `map_list` as unpacked by `make_masks` (line 389):
`[counter, exact_map_long, exact_map_lat, zoom, size, name, region]`,
keeping the fields the mask store depends on. -/
structure MapRec where
  exact_map_long : ℝ
  exact_map_lat : ℝ
  zoom : ℤ
  size : ℕ
  name : String

/-- The body of the inner loop of `make_masks` for one `(map, polygon)`
pair (lines 395-411), acting on the mask store (the files written to
`MASKS_DIR`: tile name with per-tile ordinal, raster, raster size) and
the per-tile counters `masks_saved`.  The mask is persisted iff
`np.sum(mask_png)` is nonzero (a sum of 0/255 entries, nonzero iff some
pixel is nonzero); the ordinal is `masks_saved[name] + 1`, or `0` on the
first hit of a tile (`except KeyError`, lines 403-406).  The check-image
drawing (lines 413-419) touches no mask file. -/
def make_masks_step
    (acc : List ((String × ℕ) × (Mask × ℕ)) × List (String × ℕ))
    (r : MapRec) (poly : Polygon) :
    List ((String × ℕ) × (Mask × ℕ)) × List (String × ℕ) :=
  let mask := obj_to_mask poly r.exact_map_lat r.exact_map_long r.zoom r.size
  if mask_sum mask r.size ≠ 0 then
    let k := match acc.2.lookup r.name with
      | some c => c + 1
      | none => 0
    (acc.1 ++ [((r.name, k), (mask, r.size))], (r.name, k) :: acc.2)
  else acc

/-- `make_masks` (lines 370-421): the mask store produced by iterating all
`(map, polygon)` pairs. -/
def make_masks (map_list : List MapRec) (obj_list : List Polygon) :
    List ((String × ℕ) × (Mask × ℕ)) :=
  (map_list.foldl
      (fun acc r => obj_list.foldl (fun a p => make_masks_step a r p) acc)
      ([], [])).1

/-- A concrete polygon: three vertices on the equator (latitude 0), at
longitudes 0, 1e-6 and 2e-6 degrees.  Its bounding-box center is
`(0, 1e-6)` and, at `zoom = 17`, `size = 640`, its truncated pixel ring
`[(319, 320), (320, 320), (320, 320)]` is degenerate (two distinct
collinear pixels). -/
def poly_line : Polygon := [(0, 0), (1/1000000, 0), (1/500000, 0)]

/-- A concrete non-degenerate triangle polygon straddling the equator,
with bounding-box center `(0, 225/524288)`; at `zoom = 17`,
`size = 640` its truncated pixel ring is the proper triangle
`[(280, 350), (360, 350), (320, 290)]`. -/
def poly_tri : Polygon :=
  [(0, -(675/2097152)), (225/262144, -(675/2097152)), (225/524288, 675/2097152)]

end

lemma calc_c_zoom_pos (zoom : ℤ) : 0 < calc_c_zoom zoom :=
  div_pos (by norm_num) (zpow_pos (by norm_num) _)

lemma calc_c_zoom_seventeen : calc_c_zoom 17 = 45 / 8192 := by
  have : ((17 : ℤ) - 1) = (16 : ℕ) := by norm_num
  rw [calc_c_zoom, this, zpow_natCast]
  norm_num

lemma get_exact_map_long_eval (long : ℝ) (zoom : ℤ) (h : long ≠ 0) :
    get_exact_map_long long zoom =
      .ok ((⌊long / calc_c_zoom zoom⌋ : ℝ) * calc_c_zoom zoom + calc_c_zoom zoom / 2,
        ⌊long / calc_c_zoom zoom⌋) := by
  have hC : (calc_c_zoom zoom) ≠ 0 := ne_of_gt (calc_c_zoom_pos zoom)
  have hn : long / calc_c_zoom zoom ≠ 0 := div_ne_zero h hC
  rw [get_exact_map_long]
  simp only [if_neg hn]
  have hlong' :
      long * (1 - (long / calc_c_zoom zoom - (⌊long / calc_c_zoom zoom⌋ : ℝ)) /
          (long / calc_c_zoom zoom)) =
        (⌊long / calc_c_zoom zoom⌋ : ℝ) * calc_c_zoom zoom := by
    field_simp
    ring
  rw [hlong']
  have himg : ∀ x : ℝ, long_degrees_per_img zoom x 512 = calc_c_zoom zoom := by
    intro x
    rw [long_degrees_per_img, long_degrees_per_pixel]
    norm_num
  rw [himg]

/-- C2: for every nonzero longitude `long` and every zoom,
`get_exact_map_long(long, zoom)` returns, without iteration, the pair
`(n0 * C + C / 2, n0)`, where `C = 360 / 2 ^ (zoom - 1)` is the grid
unit and `n0 = ⌊long / C⌋` is the integer part (floor, as computed by
Python's `// 1`) of the fractional grid index `long / C`. -/
theorem c2_get_exact_map_long_closed_form (long : ℝ) (zoom : ℤ) (h : long ≠ 0) :
    get_exact_map_long long zoom =
      .ok ((⌊long / calc_c_zoom zoom⌋ : ℝ) * calc_c_zoom zoom + calc_c_zoom zoom / 2,
        ⌊long / calc_c_zoom zoom⌋) :=
  get_exact_map_long_eval long zoom h

/-- Witness for C2 at `long = 100`, `zoom = 17`. -/
theorem c2_witness :
    (100 : ℝ) ≠ 0 ∧
      get_exact_map_long 100 17 =
        .ok ((⌊(100 : ℝ) / calc_c_zoom 17⌋ : ℝ) * calc_c_zoom 17 + calc_c_zoom 17 / 2,
          ⌊(100 : ℝ) / calc_c_zoom 17⌋) :=
  ⟨by norm_num, c2_get_exact_map_long_closed_form 100 17 (by norm_num)⟩

/-- C10: every call of `remove_mask_duplicates` on a nonempty polygon list
fails with an unbound-name error before completing any dedup decision:
the rasterization calls inside it reference the free names `zoom` and
`size`, which resolve neither in the function's local scope, nor in the
globals of its defining module `KML_to_mask.py`, nor in the builtins, so
Python raises `NameError` and no deduplicated list is produced. -/
theorem c10_remove_mask_duplicates_name_error (zoom : ℤ) (size : ℕ)
    (p : Polygon) (l : List Polygon) :
    remove_mask_duplicates_py zoom size (p :: l) = .error .nameError ∧
      name_resolves "zoom" = false ∧ name_resolves "size" = false := by
  have hz : name_resolves "zoom" = false := by decide
  have hs : name_resolves "size" = false := by decide
  refine ⟨?_, hz, hs⟩
  simp [remove_mask_duplicates_py, hz]

/-- C3 counterexample: two overlapping mask files of the same tile whose
ordinal suffixes are `2` and `10`.  The loop body of
`remove_masks_with_ovelapping_pixels` removes the file with suffix `2` —
the numerically smaller ordinal — because Python compares the suffixes
as strings and `"2" > "10"` lexicographically, contradicting the claim
that the mask with the numerically larger ordinal is removed. -/
theorem c3_counterexample :
    pair_action
        ("lat_55.0000000_long_37.0000000_zoom_17_hill_2.png".toList, fun _ _ => true)
        ("lat_55.0000000_long_37.0000000_zoom_17_hill_10.png".toList, fun _ _ => true)
        1 =
      some "lat_55.0000000_long_37.0000000_zoom_17_hill_2.png".toList ∧
    digits_to_nat
        (ordinal_of "lat_55.0000000_long_37.0000000_zoom_17_hill_2.png".toList) <
      digits_to_nat
        (ordinal_of "lat_55.0000000_long_37.0000000_zoom_17_hill_10.png".toList) := by
  exact ⟨by decide, by decide⟩

lemma digits_to_nat_lt_pow (ds : List Char)
    (h : ds.all is_digit_char = true) : digits_to_nat ds < 10 ^ ds.length := by
  induction ds with
  | nil => simp [digits_to_nat]
  | cons c cs ih =>
      simp only [List.all_cons, Bool.and_eq_true] at h
      have hc : c.toNat - 48 ≤ 9 := by
        have h1 := h.1
        simp only [is_digit_char, Bool.and_eq_true, decide_eq_true_eq] at h1
        omega
      have htail := ih h.2
      have hlen : (c :: cs).length = cs.length + 1 := rfl
      rw [digits_to_nat, hlen, pow_succ]
      nlinarith [pow_pos (by norm_num : (0:ℕ) < 10) cs.length]

lemma py_str_lt_digits (d1 : List Char) :
    ∀ d2 : List Char, d1.all is_digit_char = true → d2.all is_digit_char = true →
      d1.length = d2.length → digits_to_nat d1 < digits_to_nat d2 →
      py_str_lt d1 d2 = true := by
  induction d1 with
  | nil =>
      intro d2 _ _ hlen hlt
      cases d2 with
      | nil => simp [digits_to_nat] at hlt
      | cons d ds => simp at hlen
  | cons c cs ih =>
      intro d2 h1 h2 hlen hlt
      cases d2 with
      | nil => simp at hlen
      | cons d ds =>
          simp only [List.all_cons, Bool.and_eq_true] at h1 h2
          have hlen' : cs.length = ds.length := by
            simpa using hlen
          have hcs := digits_to_nat_lt_pow cs h1.2
          have hds := digits_to_nat_lt_pow ds h2.2
          rw [digits_to_nat, digits_to_nat, hlen'] at hlt
          rw [py_str_lt]
          by_cases hcd : c.toNat = d.toNat
          · rw [if_pos hcd]
            apply ih ds h1.2 h2.2 hlen'
            rw [hcd] at hlt
            omega
          · rw [if_neg hcd, decide_eq_true_eq]
            have hdc1 := h1.1
            have hdc2 := h2.1
            simp only [is_digit_char, Bool.and_eq_true, decide_eq_true_eq] at hdc1 hdc2
            by_contra hge
            push_neg at hge
            have : d.toNat < c.toNat := by omega
            have : (d.toNat - 48) + 1 ≤ c.toNat - 48 := by omega
            nlinarith [hds, hcs, pow_pos (by norm_num : (0:ℕ) < 10) ds.length]

/-- C3 amended: in `remove_masks_with_ovelapping_pixels`, ordinal suffixes
are compared as Python strings (lexicographically).  Whenever the two
suffixes are decimal digit strings with the same number of digits — in
particular for any two single-digit ordinals — this coincides with
numeric comparison, and the mask whose per-tile ordinal is numerically
larger is the one removed; with suffixes of different digit counts the
numerically smaller mask can be removed instead (see the
counterexample with ordinals 2 and 10). -/
theorem c3_amended_equal_length_ordinals (n1 n2 : List Char) (m1 m2 : Mask)
    (size : ℕ)
    (hne : n1 ≠ n2)
    (hover : masks_overlap m1 m2 size = true)
    (hmap : (py_split '_' n1).take 4 = (py_split '_' n2).take 4)
    (hd1 : (ordinal_of n1).all is_digit_char = true)
    (hd2 : (ordinal_of n2).all is_digit_char = true)
    (hlen : (ordinal_of n1).length = (ordinal_of n2).length)
    (hgt : digits_to_nat (ordinal_of n2) < digits_to_nat (ordinal_of n1)) :
    pair_action (n1, m1) (n2, m2) size = some n1 := by
  rw [pair_action]
  rw [if_pos ⟨hne, hover⟩, if_pos hmap,
    if_pos (py_str_lt_digits (ordinal_of n2) (ordinal_of n1) hd2 hd1 hlen.symm hgt)]

/-- Witness for C3's amended theorem: same-tile files with the equal-length
ordinals `7` and `3`; the numerically larger, `7`, is removed. -/
theorem c3_witness :
    ("a_b_c_d_7.png".toList ≠ "a_b_c_d_3.png".toList) ∧
      masks_overlap (fun _ _ => true) (fun _ _ => true) 1 = true ∧
      (py_split '_' "a_b_c_d_7.png".toList).take 4 =
        (py_split '_' "a_b_c_d_3.png".toList).take 4 ∧
      digits_to_nat (ordinal_of "a_b_c_d_3.png".toList) <
        digits_to_nat (ordinal_of "a_b_c_d_7.png".toList) ∧
      pair_action ("a_b_c_d_7.png".toList, fun _ _ => true)
          ("a_b_c_d_3.png".toList, fun _ _ => true) 1 =
        some "a_b_c_d_7.png".toList :=
  ⟨by decide, by decide, by decide, by decide,
    c3_amended_equal_length_ordinals _ _ _ _ _ (by decide) (by decide) (by decide)
      (by decide) (by decide) (by decide) (by decide)⟩

lemma div_mul_den (d s : ℝ) (hs : s ≠ 0) : s / (d * s) = 1 / d := by
  rcases eq_or_ne d 0 with h | h
  · simp [h]
  · field_simp
    ring

/-- C6 amended: `obj_to_mask` computes, for every vertex,
`x = (long - left) / longitudeDegreesPerPixel` and
`y = (top - lat) / latitudeDegreesPerPixel`, with `top`/`left` computed
from the tile center passed to the rasterizer as the claim states — but
the latitude degrees-per-pixel factor in the denominator of `y` is
evaluated at the polygon's own bounding-box center latitude (line 242),
not at the resolved tile center.  (The longitude factor ignores its
longitude argument, so for `x` the two readings coincide.) -/
theorem c6_amended_vertex_formulas (poly : Polygon) (exact_map_lat exact_map_long : ℝ)
    (zoom : ℤ) (size : ℕ) (hs : size ≠ 0) :
    obj_to_mask_coords poly exact_map_lat exact_map_long zoom size =
      poly.map fun v =>
        ((v.1 - (exact_map_long - long_degrees_per_img zoom exact_map_long size / 2)) /
            long_degrees_per_pixel zoom exact_map_long,
          ((exact_map_lat + lat_degrees_per_img zoom exact_map_lat size / 2) - v.2) /
            lat_degrees_per_pixel zoom (get_polygon_center poly).1) := by
  have hs' : (size : ℝ) ≠ 0 := Nat.cast_ne_zero.mpr hs
  rw [obj_to_mask_coords]
  congr 1
  funext v
  simp only [long_degrees_per_img, lat_degrees_per_img]
  rw [div_mul_den _ _ hs', div_mul_den _ _ hs']
  rw [show long_degrees_per_pixel zoom (get_polygon_center poly).2 =
      long_degrees_per_pixel zoom exact_map_long from rfl]
  rw [mul_one_div, mul_one_div]

/-- Witness for C6's amended theorem at a concrete vertex list and size. -/
theorem c6_witness :
    (640 : ℕ) ≠ 0 ∧
      obj_to_mask_coords [((1 : ℝ), 2)] 3 4 17 640 =
        [((1 : ℝ), 2)].map (fun v =>
          ((v.1 - (4 - long_degrees_per_img 17 4 640 / 2)) /
              long_degrees_per_pixel 17 4,
            ((3 + lat_degrees_per_img 17 3 640 / 2) - v.2) /
              lat_degrees_per_pixel 17 (get_polygon_center [((1 : ℝ), 2)]).1)) :=
  ⟨by norm_num, c6_amended_vertex_formulas [((1 : ℝ), 2)] 3 4 17 640 (by norm_num)⟩

/-- C6 counterexample: a polygon whose bounding-box center latitude is 0,
rasterized into a tile centered at latitude 60.  The claim's formula
divides the vertical offset by the latitude degrees-per-pixel at the
tile center (cosine 1/2), but the code divides by the value at the
polygon's own center (cosine 1), so the computed pixel coordinates
differ from the claimed ones. -/
theorem c6_counterexample :
    obj_to_mask_coords
        [((37001 : ℝ)/1000, 0), ((37002 : ℝ)/1000, 0), ((37003 : ℝ)/1000, 0)]
        60 37 17 640 ≠
      obj_to_mask_coords_spec
        [((37001 : ℝ)/1000, 0), ((37002 : ℝ)/1000, 0), ((37003 : ℝ)/1000, 0)]
        60 37 17 640 := by
  have hc : Real.cos (angle_lat 60) = 1/2 := by
    have h : angle_lat 60 = Real.pi / 3 := by rw [angle_lat]; ring
    rw [h, Real.cos_pi_div_three]
  have h0 : Real.cos (angle_lat 0) = 1 := by
    have h : angle_lat 0 = 0 := by rw [angle_lat]; ring
    rw [h, Real.cos_zero]
  have hcen :
      (get_polygon_center
          [((37001 : ℝ)/1000, 0), ((37002 : ℝ)/1000, 0), ((37003 : ℝ)/1000, 0)]).1 = 0 := by
    simp [get_polygon_center, get_polygon_bbox]
  intro h
  have h2 := congrArg (fun l : List (ℝ × ℝ) => l.headI.2) h
  simp only [obj_to_mask_coords, obj_to_mask_coords_spec, List.map, List.headI] at h2
  rw [hcen] at h2
  simp only [lat_degrees_per_img, lat_degrees_per_pixel, calc_c_zoom_seventeen,
    hc, h0] at h2
  norm_num at h2

lemma py_trunc_eq (x : ℝ) (z : ℤ) (h0 : 0 ≤ x) (h1 : (z : ℝ) ≤ x) (h2 : x < z + 1) :
    py_trunc x = z := by
  rw [py_trunc, if_pos h0]
  exact Int.floor_eq_iff.mpr ⟨h1, h2⟩

lemma cos_angle_lat_zero : Real.cos (angle_lat 0) = 1 := by
  have h : angle_lat 0 = 0 := by rw [angle_lat]; ring
  rw [h, Real.cos_zero]

lemma poly_line_center : get_polygon_center poly_line = (0, 1/1000000) := by
  rw [poly_line, get_polygon_center, get_polygon_bbox]
  norm_num [min_def, max_def]

lemma poly_tri_center : get_polygon_center poly_tri = (0, 225/524288) := by
  rw [poly_tri, get_polygon_center, get_polygon_bbox]
  norm_num [min_def, max_def]

lemma poly_line_px :
    obj_to_mask_px poly_line 0 (1/1000000) 17 640 =
      [(319, 320), (320, 320), (320, 320)] := by
  rw [obj_to_mask_px, obj_to_mask_coords, poly_line_center]
  simp only [poly_line, List.map, lat_degrees_per_img, lat_degrees_per_pixel,
    long_degrees_per_img, long_degrees_per_pixel, calc_c_zoom_seventeen,
    cos_angle_lat_zero]
  congr 1
  · congr 1
    · exact py_trunc_eq _ 319 (by norm_num) (by norm_num) (by norm_num)
    · exact py_trunc_eq _ 320 (by norm_num) (by norm_num) (by norm_num)
  congr 1
  · congr 1
    · exact py_trunc_eq _ 320 (by norm_num) (by norm_num) (by norm_num)
    · exact py_trunc_eq _ 320 (by norm_num) (by norm_num) (by norm_num)
  congr 1
  · congr 1
    · exact py_trunc_eq _ 320 (by norm_num) (by norm_num) (by norm_num)
    · exact py_trunc_eq _ 320 (by norm_num) (by norm_num) (by norm_num)

lemma poly_tri_px :
    obj_to_mask_px poly_tri 0 (225/524288) 17 640 =
      [(280, 350), (360, 350), (320, 290)] := by
  rw [obj_to_mask_px, obj_to_mask_coords, poly_tri_center]
  simp only [poly_tri, List.map, lat_degrees_per_img, lat_degrees_per_pixel,
    long_degrees_per_img, long_degrees_per_pixel, calc_c_zoom_seventeen,
    cos_angle_lat_zero]
  congr 1
  · congr 1
    · exact py_trunc_eq _ 280 (by norm_num) (by norm_num) (by norm_num)
    · exact py_trunc_eq _ 350 (by norm_num) (by norm_num) (by norm_num)
  congr 1
  · congr 1
    · exact py_trunc_eq _ 360 (by norm_num) (by norm_num) (by norm_num)
    · exact py_trunc_eq _ 350 (by norm_num) (by norm_num) (by norm_num)
  congr 1
  · congr 1
    · exact py_trunc_eq _ 320 (by norm_num) (by norm_num) (by norm_num)
    · exact py_trunc_eq _ 290 (by norm_num) (by norm_num) (by norm_num)

lemma poly_line_mask :
    obj_to_mask poly_line 0 (1/1000000) 17 640 = fun _ _ => false := by
  rw [obj_to_mask, poly_line_px, draw_contours_fill,
    if_pos (show degenerate_ring
      [((319 : ℤ), (320 : ℤ)), (320, 320), (320, 320)] = true by decide)]

lemma mask_any_const_false (size : ℕ) : mask_any (fun _ _ => false) size = false := by
  simp [mask_any]

lemma mask_sum_const_false (size : ℕ) : mask_sum (fun _ _ => false) size = 0 := by
  rw [mask_sum]
  have h : ∀ l : List (ℤ × ℤ),
      (l.map fun q => if (fun _ _ => false : Mask) q.1 q.2 then (255 : ℕ) else 0).sum = 0 := by
    intro l
    induction l with
    | nil => rfl
    | cons q qs ih => simp [ih]
  exact h _

lemma masks_overlap_left_false (m : Mask) (size : ℕ) :
    masks_overlap (fun _ _ => false) m size = false := by
  simp [masks_overlap]

lemma masks_overlap_self (m : Mask) (size : ℕ) :
    masks_overlap m m size = mask_any m size := by
  simp [masks_overlap, mask_any, Bool.and_self]

lemma mem_grid (i j size : ℕ) (hi : i < size) (hj : j < size) :
    ((i : ℤ), (j : ℤ)) ∈ grid size := by
  rw [grid, List.mem_flatMap]
  refine ⟨j, List.mem_range.mpr hj, ?_⟩
  exact List.mem_map_of_mem _ (List.mem_range.mpr hi)

lemma mask_any_of_pixel (m : Mask) (size i j : ℕ) (hi : i < size) (hj : j < size)
    (h : m (i : ℤ) (j : ℤ) = true) : mask_any m size = true := by
  rw [mask_any, List.any_eq_true]
  exact ⟨((i : ℤ), (j : ℤ)), mem_grid i j size hi hj, h⟩

lemma poly_tri_mask_any :
    mask_any (obj_to_mask poly_tri 0 (225/524288) 17 640) 640 = true := by
  rw [obj_to_mask, poly_tri_px]
  exact mask_any_of_pixel _ 640 320 330 (by norm_num) (by norm_num) (by decide)

lemma mask_sum_ne_zero_iff (m : Mask) (size : ℕ) :
    mask_sum m size ≠ 0 ↔ mask_any m size = true := by
  rw [mask_sum, mask_any]
  generalize grid size = l
  induction l with
  | nil => simp
  | cons q qs ih =>
      by_cases h : m q.1 q.2 <;> simp [h, ih]

/-- C7: whenever the truncated integer pixel ring of a polygon is
degenerate — fewer than 3 distinct vertices, or collinear points —
`obj_to_mask` returns the all-zero `size × size` mask and produces no
error (the embedded rasterization is total).  The fill behaviour is the
spec-modelled `draw_contours_fill` (cv2 is external to `src/`). -/
theorem c7_degenerate_ring_zero_mask (poly : Polygon)
    (exact_map_lat exact_map_long : ℝ) (zoom : ℤ) (size : ℕ)
    (h : degenerate_ring (obj_to_mask_px poly exact_map_lat exact_map_long zoom size) = true)
    (i j : ℤ) :
    obj_to_mask poly exact_map_lat exact_map_long zoom size i j = false := by
  rw [obj_to_mask, draw_contours_fill, if_pos h]

/-- Witness for C7 at the degenerate polygon `poly_line`. -/
theorem c7_witness :
    degenerate_ring (obj_to_mask_px poly_line 0 (1/1000000) 17 640) = true ∧
      obj_to_mask poly_line 0 (1/1000000) 17 640 5 7 = false :=
  have hdeg : degenerate_ring (obj_to_mask_px poly_line 0 (1/1000000) 17 640) = true := by
    rw [poly_line_px]; decide
  ⟨hdeg, c7_degenerate_ring_zero_mask poly_line 0 (1/1000000) 17 640 hdeg 5 7⟩

/-- C4 counterexample: on the one-element input `[poly_line]`, whose single
polygon rasterizes (at its own center) to an all-zero mask, the dedup
pass keeps `poly_line` as `new_list[0]` and then appends it again —
the loop re-processes the first element and finds no overlap with the
all-zero masks — so the output `[poly_line, poly_line]` contains the
first polygon twice, contradicting the claim that no polygon appears
more than once. -/
theorem c4_counterexample :
    remove_mask_duplicates 17 640 [poly_line] = [poly_line, poly_line] ∧
      ¬ (remove_mask_duplicates 17 640 [poly_line]).Nodup := by
  have hrun : remove_mask_duplicates 17 640 [poly_line] = [poly_line, poly_line] := by
    rw [remove_mask_duplicates]
    simp only [List.foldl, remove_mask_duplicates_step, poly_line_center]
    rw [poly_line_mask]
    simp [masks_overlap_left_false]
  exact ⟨hrun, by simp [hrun]⟩

lemma dedup_step_subset (zoom : ℤ) (size : ℕ) (acc : List Polygon) (old : Polygon) :
    ∀ x ∈ remove_mask_duplicates_step zoom size acc old, x ∈ acc ∨ x = old := by
  intro x hx
  simp only [remove_mask_duplicates_step] at hx
  by_cases hov : (acc.any fun nw =>
      masks_overlap
        (obj_to_mask old (get_polygon_center old).1 (get_polygon_center old).2 zoom size)
        (obj_to_mask nw (get_polygon_center old).1 (get_polygon_center old).2 zoom size)
        size) = true
  · rw [if_pos hov] at hx
    exact .inl hx
  · rw [if_neg hov] at hx
    rcases List.mem_append.mp hx with h | h
    · exact .inl h
    · exact .inr (List.mem_singleton.mp h)

lemma dedup_step_nodup (zoom : ℤ) (size : ℕ) (acc : List Polygon) (old : Polygon)
    (hacc : acc.Nodup)
    (hself : mask_any (obj_to_mask old (get_polygon_center old).1
        (get_polygon_center old).2 zoom size) size = true) :
    (remove_mask_duplicates_step zoom size acc old).Nodup := by
  simp only [remove_mask_duplicates_step]
  by_cases hov : (acc.any fun nw =>
      masks_overlap
        (obj_to_mask old (get_polygon_center old).1 (get_polygon_center old).2 zoom size)
        (obj_to_mask nw (get_polygon_center old).1 (get_polygon_center old).2 zoom size)
        size) = true
  · rw [if_pos hov]
    exact hacc
  · rw [if_neg hov]
    have hnot : old ∉ acc := by
      intro hmem
      exact hov (List.any_eq_true.mpr
        ⟨old, hmem, by rw [masks_overlap_self]; exact hself⟩)
    rw [List.nodup_append]
    exact ⟨hacc, List.nodup_singleton _,
      fun a ha hb => hnot (List.mem_singleton.mp hb ▸ ha)⟩

lemma dedup_fold_invariant (zoom : ℤ) (size : ℕ) (l0 : List Polygon)
    (hself : ∀ p ∈ l0, mask_any (obj_to_mask p (get_polygon_center p).1
        (get_polygon_center p).2 zoom size) size = true) :
    ∀ (rest acc : List Polygon), (∀ x ∈ rest, x ∈ l0) → acc.Nodup →
      (∀ x ∈ acc, x ∈ l0) →
      ((rest.foldl (remove_mask_duplicates_step zoom size) acc).Nodup ∧
        ∀ x ∈ rest.foldl (remove_mask_duplicates_step zoom size) acc, x ∈ l0) := by
  intro rest
  induction rest with
  | nil =>
      intro acc _ h2 h3
      exact ⟨h2, h3⟩
  | cons old tl ih =>
      intro acc h1 h2 h3
      rw [List.foldl_cons]
      have hold : old ∈ l0 := h1 old (List.mem_cons_self _ _)
      refine ih _ (fun x hx => h1 x (List.mem_cons_of_mem _ hx))
        (dedup_step_nodup zoom size acc old h2 (hself old hold)) ?_
      intro x hx
      rcases dedup_step_subset zoom size acc old x hx with h | h
      · exact h3 x h
      · exact h ▸ hold

lemma dedup_fold_subset (zoom : ℤ) (size : ℕ) (l0 : List Polygon) :
    ∀ (rest acc : List Polygon), (∀ x ∈ rest, x ∈ l0) → (∀ x ∈ acc, x ∈ l0) →
      ∀ x ∈ rest.foldl (remove_mask_duplicates_step zoom size) acc, x ∈ l0 := by
  intro rest
  induction rest with
  | nil =>
      intro acc _ h2
      exact h2
  | cons old tl ih =>
      intro acc h1 h2
      rw [List.foldl_cons]
      refine ih _ (fun x hx => h1 x (List.mem_cons_of_mem _ hx)) ?_
      intro x hx
      rcases dedup_step_subset zoom size acc old x hx with h | h
      · exact h2 x h
      · exact h ▸ h1 old (List.mem_cons_self _ _)

/-- C4 amended: for every input polygon list, the deduplicated list of
`remove_mask_duplicates` contains only polygons of the input —
unconditionally; and provided every input polygon's mask drawn at its
own bounding-box center has at least one nonzero pixel (so that the
overlap test is reflexive), no polygon — in particular the
unconditionally kept first element, which the loop re-processes —
appears more than once.  Without that proviso a first polygon whose
self-centered mask is all-zero appears twice (see the counterexample). -/
theorem c4_amended_dedup (zoom : ℤ) (size : ℕ) (old_list : List Polygon) :
    (∀ q ∈ remove_mask_duplicates zoom size old_list, q ∈ old_list) ∧
      ((∀ p ∈ old_list, mask_any (obj_to_mask p (get_polygon_center p).1
          (get_polygon_center p).2 zoom size) size = true) →
        (remove_mask_duplicates zoom size old_list).Nodup) := by
  cases old_list with
  | nil => simp [remove_mask_duplicates]
  | cons p0 tl =>
      constructor
      · simp only [remove_mask_duplicates]
        exact dedup_fold_subset zoom size (p0 :: tl) (p0 :: tl) [p0]
          (fun x hx => hx)
          (fun x hx => List.mem_singleton.mp hx ▸ List.mem_cons_self p0 tl)
      · intro hself
        have h := dedup_fold_invariant zoom size (p0 :: tl) hself (p0 :: tl) [p0]
          (fun x hx => hx) (List.nodup_singleton _)
          (fun x hx => List.mem_singleton.mp hx ▸ List.mem_cons_self p0 tl)
        simpa only [remove_mask_duplicates] using h.1

/-- Witness for C4's amended theorem on the one-element list holding the
non-degenerate triangle `poly_tri`. -/
theorem c4_witness :
    (∀ p ∈ [poly_tri], mask_any (obj_to_mask p (get_polygon_center p).1
        (get_polygon_center p).2 17 640) 640 = true) ∧
      (∀ q ∈ remove_mask_duplicates 17 640 [poly_tri], q ∈ [poly_tri]) ∧
        (remove_mask_duplicates 17 640 [poly_tri]).Nodup :=
  have hself : ∀ p ∈ [poly_tri], mask_any (obj_to_mask p (get_polygon_center p).1
      (get_polygon_center p).2 17 640) 640 = true := by
    intro p hp
    rw [List.mem_singleton.mp hp, poly_tri_center]
    exact poly_tri_mask_any
  ⟨hself, (c4_amended_dedup 17 640 [poly_tri]).1,
    (c4_amended_dedup 17 640 [poly_tri]).2 hself⟩

lemma make_masks_step_all_nonzero
    (acc : List ((String × ℕ) × (Mask × ℕ)) × List (String × ℕ))
    (r : MapRec) (poly : Polygon)
    (h : acc.1.all (fun e => mask_any e.2.1 e.2.2) = true) :
    (make_masks_step acc r poly).1.all (fun e => mask_any e.2.1 e.2.2) = true := by
  simp only [make_masks_step]
  by_cases hm : mask_sum
      (obj_to_mask poly r.exact_map_lat r.exact_map_long r.zoom r.size) r.size ≠ 0
  · rw [if_pos hm, List.all_append]
    simp [h, (mask_sum_ne_zero_iff _ _).mp hm]
  · rw [if_neg hm]
    exact h

lemma make_masks_fold_inner (r : MapRec) (objs : List Polygon) :
    ∀ acc, acc.1.all (fun e => mask_any e.2.1 e.2.2) = true →
      (objs.foldl (fun a p => make_masks_step a r p) acc).1.all
        (fun e => mask_any e.2.1 e.2.2) = true := by
  induction objs with
  | nil => exact fun acc h => h
  | cons p ps ih =>
      intro acc h
      exact ih _ (make_masks_step_all_nonzero acc r p h)

lemma make_masks_fold_outer (maps : List MapRec) (objs : List Polygon) :
    ∀ acc, acc.1.all (fun e => mask_any e.2.1 e.2.2) = true →
      ((maps.foldl (fun acc r => objs.foldl (fun a p => make_masks_step a r p) acc)
          acc).1.all (fun e => mask_any e.2.1 e.2.2)) = true := by
  induction maps with
  | nil => exact fun acc h => h
  | cons r rs ih =>
      intro acc h
      exact ih _ (make_masks_fold_inner r objs acc h)

/-- C8: in the tile-polygon assignment `make_masks`, a mask file is
persisted for a `(tile, polygon)` pair iff the rasterized mask has a
nonzero pixel: every entry of the produced mask store has at least one
nonzero pixel; a pair whose mask is all-zero leaves the accumulated
store (and the per-tile counters) unchanged; and a pair with a nonzero
mask appends exactly that mask to the store under the tile's next
ordinal. -/
theorem c8_make_masks_persist_iff :
    (∀ (map_list : List MapRec) (obj_list : List Polygon),
        (make_masks map_list obj_list).all (fun e => mask_any e.2.1 e.2.2) = true) ∧
      (∀ acc (r : MapRec) (poly : Polygon),
        mask_sum (obj_to_mask poly r.exact_map_lat r.exact_map_long r.zoom r.size)
            r.size = 0 →
          make_masks_step acc r poly = acc) ∧
      (∀ acc (r : MapRec) (poly : Polygon),
        mask_sum (obj_to_mask poly r.exact_map_lat r.exact_map_long r.zoom r.size)
            r.size ≠ 0 →
          ∃ k, (make_masks_step acc r poly).1 =
            acc.1 ++ [((r.name, k),
              (obj_to_mask poly r.exact_map_lat r.exact_map_long r.zoom r.size,
                r.size))]) := by
  refine ⟨?_, ?_, ?_⟩
  · intro map_list obj_list
    rw [make_masks]
    exact make_masks_fold_outer map_list obj_list ([], []) rfl
  · intro acc r poly h
    simp only [make_masks_step]
    rw [if_neg (by simp [h])]
  · intro acc r poly h
    simp only [make_masks_step]
    rw [if_pos h]
    exact ⟨_, rfl⟩

/-- Witness for C8 at a pair with an all-zero mask (`poly_line`) and a
pair with a nonzero mask (`poly_tri`). -/
theorem c8_witness :
    (mask_sum (obj_to_mask poly_line 0 (1/1000000) 17 640) 640 = 0 ∧
        make_masks_step ([], []) ⟨1/1000000, 0, 17, 640, "a"⟩ poly_line = ([], [])) ∧
      (mask_sum (obj_to_mask poly_tri 0 (225/524288) 17 640) 640 ≠ 0 ∧
        ∃ k, (make_masks_step ([], []) ⟨225/524288, 0, 17, 640, "b"⟩ poly_tri).1 =
          [] ++ [(("b", k), (obj_to_mask poly_tri 0 (225/524288) 17 640, 640))]) :=
  have h0 : mask_sum (obj_to_mask poly_line 0 (1/1000000) 17 640) 640 = 0 := by
    rw [poly_line_mask]
    exact mask_sum_const_false 640
  have h1 : mask_sum (obj_to_mask poly_tri 0 (225/524288) 17 640) 640 ≠ 0 :=
    (mask_sum_ne_zero_iff _ _).mpr poly_tri_mask_any
  ⟨⟨h0, c8_make_masks_persist_iff.2.1 ([], []) ⟨1/1000000, 0, 17, 640, "a"⟩ poly_line h0⟩,
    ⟨h1, c8_make_masks_persist_iff.2.2 ([], []) ⟨225/524288, 0, 17, 640, "b"⟩ poly_tri h1⟩⟩

lemma log_sec_tan_lower (x : ℝ) (hx : 0 < x) (hx1 : x ≤ 1) (hx2 : x < Real.pi / 2) :
    x / 2 ≤ Real.log (1 / Real.cos x + Real.tan x) := by
  have hcos : 0 < Real.cos x := Real.cos_pos_of_mem_Ioo ⟨by linarith, hx2⟩
  have htan : x < Real.tan x := Real.lt_tan hx hx2
  have hsec : 1 ≤ 1 / Real.cos x := by
    rw [le_div_iff₀ hcos]
    simpa using Real.cos_le_one x
  have harg : 1 + x ≤ 1 / Real.cos x + Real.tan x := by linarith
  have h1 : Real.log (1 + x) ≤ Real.log (1 / Real.cos x + Real.tan x) :=
    Real.log_le_log (by linarith) harg
  have h2 : 1 - (1 + x)⁻¹ ≤ Real.log (1 + x) :=
    Real.one_sub_inv_le_log_of_pos (by linarith)
  have h3 : x / 2 ≤ 1 - (1 + x)⁻¹ := by
    have hxx : (0:ℝ) < 1 + x := by linarith
    have he : 1 - (1 + x)⁻¹ = x / (1 + x) := by field_simp
    rw [he, div_le_div_iff₀ (by norm_num) hxx]
    nlinarith
  linarith

lemma log_sec_tan_upper (x : ℝ) (hx : 0 < x) (hx1 : x ≤ 1 / 2) :
    Real.log (1 / Real.cos x + Real.tan x) ≤ 2 * x := by
  have hpi := Real.pi_gt_three
  have hx2 : x < Real.pi / 2 := by linarith
  have hcos : 0 < Real.cos x := Real.cos_pos_of_mem_Ioo ⟨by linarith, hx2⟩
  have hcoslb : 1 - x ^ 2 / 2 ≤ Real.cos x := Real.one_sub_sq_div_two_le_cos
  have hden : (0:ℝ) < 1 - x ^ 2 / 2 := by nlinarith
  have hsin : Real.sin x < x := Real.sin_lt hx
  have htan : Real.tan x ≤ x / Real.cos x := by
    rw [Real.tan_eq_sin_div_cos]
    exact (div_le_div_iff_of_pos_right hcos).mpr hsin.le
  have hsec : 1 / Real.cos x - 1 ≤ x ^ 2 / 2 / Real.cos x := by
    have h1 : 1 - Real.cos x ≤ x ^ 2 / 2 := by linarith
    have he : 1 / Real.cos x - 1 = (1 - Real.cos x) / Real.cos x := by field_simp
    rw [he]
    exact (div_le_div_iff_of_pos_right hcos).mpr h1
  have hsec1 : 1 ≤ 1 / Real.cos x := by
    rw [le_div_iff₀ hcos]
    simpa using Real.cos_le_one x
  have htan0 : 0 ≤ Real.tan x := by
    rw [Real.tan_eq_sin_div_cos]
    have := Real.sin_nonneg_of_nonneg_of_le_pi hx.le (by linarith)
    positivity
  have harg : 0 < 1 / Real.cos x + Real.tan x := by linarith
  have hlog : Real.log (1 / Real.cos x + Real.tan x) ≤ 1 / Real.cos x + Real.tan x - 1 :=
    Real.log_le_sub_one_of_pos harg
  have hsum : 1 / Real.cos x + Real.tan x - 1 ≤ (x + x ^ 2 / 2) / Real.cos x := by
    have he : (x + x ^ 2 / 2) / Real.cos x = x / Real.cos x + x ^ 2 / 2 / Real.cos x := by
      ring
    rw [he]
    linarith
  have hmono : (x + x ^ 2 / 2) / Real.cos x ≤ (x + x ^ 2 / 2) / (1 - x ^ 2 / 2) :=
    div_le_div_of_nonneg_left (by positivity) hden hcoslb
  have hfinal : (x + x ^ 2 / 2) / (1 - x ^ 2 / 2) ≤ 2 * x := by
    rw [div_le_iff₀ hden]
    nlinarith
  linarith

lemma angle_lat_thousandth : angle_lat (1 / 1000) = Real.pi / 180000 := by
  rw [angle_lat]
  ring

lemma pi_angle_bounds :
    0 < Real.pi / 180000 ∧ Real.pi / 180000 ≤ 1 / 2 ∧ Real.pi / 180000 < Real.pi / 2 := by
  have h3 := Real.pi_gt_three
  have h4 := Real.pi_lt_four
  refine ⟨by positivity, by linarith, by linarith⟩

lemma norm_lat_thousandth_lb : 1 / 2000 ≤ norm_lat (1 / 1000) := by
  obtain ⟨hp, hh, h2⟩ := pi_angle_bounds
  have hπ := Real.pi_pos
  rw [norm_lat, angle_lat_thousandth]
  have hL := log_sec_tan_lower (Real.pi / 180000) hp (by linarith) h2
  have hmul : 180 / Real.pi * (Real.pi / 180000 / 2) = 1 / 2000 := by
    field_simp
    ring
  calc (1:ℝ) / 2000 = 180 / Real.pi * (Real.pi / 180000 / 2) := hmul.symm
    _ ≤ 180 / Real.pi *
        Real.log (1 / Real.cos (Real.pi / 180000) + Real.tan (Real.pi / 180000)) :=
      mul_le_mul_of_nonneg_left hL (by positivity)

lemma norm_lat_thousandth_ub : norm_lat (1 / 1000) ≤ 1 / 500 := by
  obtain ⟨hp, hh, _⟩ := pi_angle_bounds
  have hπ := Real.pi_pos
  rw [norm_lat, angle_lat_thousandth]
  have hL := log_sec_tan_upper (Real.pi / 180000) hp hh
  have hmul : 180 / Real.pi * (2 * (Real.pi / 180000)) = 1 / 500 := by
    field_simp
    ring
  calc 180 / Real.pi *
      Real.log (1 / Real.cos (Real.pi / 180000) + Real.tan (Real.pi / 180000)) ≤
        180 / Real.pi * (2 * (Real.pi / 180000)) :=
      mul_le_mul_of_nonneg_left hL (by positivity)
    _ = 1 / 500 := hmul

lemma equatorial_cell_lat_error (lat : ℝ) (zoom : ℤ) (fuel : ℕ)
    (h1 : 0 < norm_lat lat) (h2 : norm_lat lat < calc_c_zoom zoom)
    (h3 : 1e-9 < norm_lat lat / calc_c_zoom zoom) :
    get_exact_map_lat lat zoom (fuel + 1) = .error .zeroDivisionError := by
  have hC := calc_c_zoom_pos zoom
  have hn_pos : 0 < norm_lat lat / calc_c_zoom zoom := div_pos h1 hC
  have hn_lt1 : norm_lat lat / calc_c_zoom zoom < 1 := (div_lt_one hC).mpr h2
  have hfl : ⌊norm_lat lat / calc_c_zoom zoom⌋ = 0 :=
    Int.floor_eq_zero_iff.mpr ⟨hn_pos.le, hn_lt1⟩
  have hcond : ¬ (|norm_lat lat / calc_c_zoom zoom - ((0 : ℤ) : ℝ)| ≤ 1e-9) := by
    rw [Int.cast_zero, sub_zero, abs_of_pos hn_pos]
    exact not_le.mpr h3
  simp only [get_exact_map_lat, hfl, get_exact_map_lat_loop]
  rw [if_neg hcond]
  simp

lemma norm_lat_thousandth_pos : 0 < norm_lat (1 / 1000) :=
  lt_of_lt_of_le (by norm_num) norm_lat_thousandth_lb

lemma norm_lat_thousandth_lt_c17 : norm_lat (1 / 1000) < calc_c_zoom 17 := by
  rw [calc_c_zoom_seventeen]
  exact lt_of_le_of_lt norm_lat_thousandth_ub (by norm_num)

lemma norm_lat_thousandth_tol : 1e-9 < norm_lat (1 / 1000) / calc_c_zoom 17 := by
  rw [calc_c_zoom_seventeen]
  have h : (1 : ℝ) / 2000 / (45 / 8192) ≤ norm_lat (1 / 1000) / (45 / 8192) :=
    (div_le_div_iff_of_pos_right (by norm_num)).mpr norm_lat_thousandth_lb
  calc (1e-9 : ℝ) < 1 / 2000 / (45 / 8192) := by norm_num
    _ ≤ norm_lat (1 / 1000) / (45 / 8192) := h

/-- C9: the Tile Center Solver is not total on the spec's valid input
domain.  `get_exact_map_long` divides by the fractional grid index
`n_map_long = long / C_zoom` and raises `ZeroDivisionError` at
`long = 0`, for every zoom; and on every latitude whose normalized
latitude lies in the equatorial grid cell — `0 < norm_lat(lat) <
C_zoom`, above the loop's entry tolerance — the loop body of
`get_exact_map_lat` divides by the zero integer grid index
`n_map_lat_int` on its first iteration and raises `ZeroDivisionError`,
whatever fuel bounds the loop. -/
theorem c9_solver_division_by_zero :
    (∀ zoom : ℤ, get_exact_map_long 0 zoom = .error .zeroDivisionError) ∧
      (∀ (lat : ℝ) (zoom : ℤ) (fuel : ℕ),
        0 < norm_lat lat → norm_lat lat < calc_c_zoom zoom →
          1e-9 < norm_lat lat / calc_c_zoom zoom →
          get_exact_map_lat lat zoom (fuel + 1) = .error .zeroDivisionError) := by
  constructor
  · intro zoom
    simp [get_exact_map_long]
  · intro lat zoom fuel h1 h2 h3
    exact equatorial_cell_lat_error lat zoom fuel h1 h2 h3

/-- Witness for C9 at latitude 0.001, zoom 17, one unit of fuel. -/
theorem c9_witness :
    0 < norm_lat (1 / 1000) ∧ norm_lat (1 / 1000) < calc_c_zoom 17 ∧
      1e-9 < norm_lat (1 / 1000) / calc_c_zoom 17 ∧
      get_exact_map_lat (1 / 1000) 17 1 = .error .zeroDivisionError :=
  ⟨norm_lat_thousandth_pos, norm_lat_thousandth_lt_c17, norm_lat_thousandth_tol,
    c9_solver_division_by_zero.2 (1 / 1000) 17 0 norm_lat_thousandth_pos
      norm_lat_thousandth_lt_c17 norm_lat_thousandth_tol⟩

/-- C1 counterexample: at the valid latitude 0.001 (its normalized
latitude lies inside the equatorial grid cell at zoom 17), the
refinement loop of `get_exact_map_lat` stops neither with the residual
below the 1e-9 tolerance nor at a reported iteration bound: its first
iteration divides by the zero integer grid index `n_map_lat_int`, and
the solver terminates with an uncaught `ZeroDivisionError` — here shown
with a million units of fuel, far beyond the single iteration used. -/
theorem c1_counterexample :
    get_exact_map_lat (1 / 1000) 17 1000000 = .error .zeroDivisionError := by
  have h : (1000000 : ℕ) = 999999 + 1 := by norm_num
  rw [h]
  exact equatorial_cell_lat_error (1 / 1000) 17 999999 norm_lat_thousandth_pos
    norm_lat_thousandth_lt_c17 norm_lat_thousandth_tol

/-- C1 amended: the refinement loop of `get_exact_map_lat` has no maximum
iteration bound and no convergence-failure report in the source; its
only successful exit is the tolerance test — whenever the loop returns a
refined latitude, that latitude's residual against the integer
normalized-latitude grid index is at most 1e-9.  (In this fuel-indexed
embedding, exhausting the fuel yields the distinguished `fuelExhausted`
value, an outcome the unbounded Python loop can never report; on
equatorial-cell inputs the loop instead raises `ZeroDivisionError`, see
the counterexample.) -/
theorem c1_amended_loop_success_residual (C_zoom : ℝ) (m0 : ℤ) (fuel : ℕ) :
    ∀ lat lat' : ℝ, get_exact_map_lat_loop C_zoom m0 fuel lat = .ok lat' →
      |norm_lat lat' / C_zoom - (m0 : ℝ)| ≤ 1e-9 := by
  induction fuel with
  | zero =>
      intro lat lat' h
      simp only [get_exact_map_lat_loop] at h
      by_cases hc : |norm_lat lat / C_zoom - (m0 : ℝ)| ≤ 1e-9
      · rw [if_pos hc] at h
        simp only [Except.ok.injEq] at h
        rwa [← h]
      · rw [if_neg hc] at h
        simp at h
  | succ n ih =>
      intro lat lat' h
      simp only [get_exact_map_lat_loop] at h
      by_cases hc : |norm_lat lat / C_zoom - (m0 : ℝ)| ≤ 1e-9
      · rw [if_pos hc] at h
        simp only [Except.ok.injEq] at h
        rwa [← h]
      · rw [if_neg hc] at h
        by_cases hm : m0 = 0
        · rw [if_pos hm] at h
          simp at h
        · rw [if_neg hm] at h
          by_cases hl : lat = 0
          · rw [if_pos hl] at h
            simp at h
          · rw [if_neg hl] at h
            exact ih _ _ h

/-- Witness for C1's amended theorem: at latitude 0 the residual is zero,
so the loop exits at once with the input latitude. -/
theorem c1_witness :
    get_exact_map_lat_loop (calc_c_zoom 17) 0 0 0 = .ok 0 ∧
      |norm_lat 0 / calc_c_zoom 17 - ((0 : ℤ) : ℝ)| ≤ 1e-9 := by
  have hnl : norm_lat 0 = 0 := by
    have ha : angle_lat 0 = 0 := by rw [angle_lat]; ring
    rw [norm_lat, ha, Real.cos_zero, Real.tan_zero]
    norm_num
  have hok : get_exact_map_lat_loop (calc_c_zoom 17) 0 0 0 = .ok 0 := by
    simp only [get_exact_map_lat_loop]
    rw [if_pos (by rw [hnl]; norm_num)]
  exact ⟨hok, c1_amended_loop_success_residual (calc_c_zoom 17) 0 0 0 0 hok⟩

/-- Development result toward C5 (Tile Center Solver idempotence): the
longitude half of the solver is exactly idempotent — when
`get_exact_map_long` succeeds at `long`, running it again on the
corrected longitude it returned yields that same corrected longitude and
the same grid index.  The latitude half of C5 depends on the convergence
behaviour of the transcendental refinement loop of `get_exact_map_lat`
and is not settled in this development. -/
theorem get_exact_map_long_idem (long c : ℝ) (zoom : ℤ) (n0 : ℤ)
    (h : get_exact_map_long long zoom = .ok (c, n0)) :
    get_exact_map_long c zoom = .ok (c, n0) := by
  have hC := calc_c_zoom_pos zoom
  have hCne : calc_c_zoom zoom ≠ 0 := ne_of_gt hC
  by_cases h0 : long = 0
  · rw [h0] at h
    have hz : get_exact_map_long 0 zoom = .error .zeroDivisionError := by
      simp [get_exact_map_long]
    rw [hz] at h
    simp at h
  · rw [get_exact_map_long_eval long zoom h0] at h
    simp only [Except.ok.injEq, Prod.mk.injEq] at h
    obtain ⟨hc, hn⟩ := h
    subst hn
    have hcval : c = (⌊long / calc_c_zoom zoom⌋ : ℝ) * calc_c_zoom zoom +
        calc_c_zoom zoom / 2 := hc.symm
    set n0 := ⌊long / calc_c_zoom zoom⌋ with hn0
    have hhalf : ((n0 : ℝ) + 1 / 2) ≠ 0 := by
      intro hh
      have h2 : ((2 * n0 + 1 : ℤ) : ℝ) = 0 := by
        push_cast
        linarith
      have h3 : (2 * n0 + 1 : ℤ) = 0 := by exact_mod_cast h2
      omega
    have hc0 : c ≠ 0 := by
      rw [hcval]
      have he : (n0 : ℝ) * calc_c_zoom zoom + calc_c_zoom zoom / 2 =
          calc_c_zoom zoom * ((n0 : ℝ) + 1 / 2) := by ring
      rw [he]
      exact mul_ne_zero hCne hhalf
    have hquot : c / calc_c_zoom zoom = (n0 : ℝ) + 1 / 2 := by
      rw [hcval]
      field_simp
      ring
    have hfl : ⌊c / calc_c_zoom zoom⌋ = n0 := by
      rw [hquot]
      rw [Int.floor_eq_iff]
      constructor
      · linarith
      · linarith
    rw [get_exact_map_long_eval c zoom hc0, hfl, ← hcval]
